import Mathlib

/-!
Shallow embedding of the drawdb-server diagram subsystem
(src/drawdb-server/src/controllers/diagram-controller.ts and
src/drawdb-server/src/models/DiagramShare.ts), covering the
optimistic-versioning update protocol, the share registry and the
permission checks. Identifiers are modelled as naturals, JSONB payload
columns as opaque strings, timestamps as naturals. Each controller
action is a pure function from a server state and request data to a
response value paired with the successor state; responses mirror the
HTTP results the controller sends.
-/

/-- Permission levels of a share entry (models/DiagramShare.ts, enum
PermissionLevel). -/
inductive PermissionLevel where
  | viewer
  | editor
  | owner
deriving DecidableEq, Repr

/-- A share-registry row (models/DiagramShare.ts): maps a
(diagramId, sharedWithUserId) pair to a permission level, recording who
granted it. -/
structure DiagramShare where
  diagramId : Nat
  sharedWithUserId : Nat
  sharedByUserId : Nat
  permissionLevel : PermissionLevel
deriving DecidableEq, Repr

/-- A diagram row (models/Diagram, per the backend implementation guide:
id, userId, name, database, JSONB content columns, gist fields,
lastModified, isShared, plus the version / lastModifiedBy columns used
by diagram-controller.ts). JSONB content columns are opaque strings. -/
structure Diagram where
  id : Nat
  userId : Nat
  name : String
  database : String
  tables : String
  references : String
  notes : String
  areas : String
  todos : String
  gistId : Option String
  loadedFromGistId : Option String
  version : Nat
  lastModifiedBy : Nat
  lastModified : Nat
  isShared : Bool
deriving DecidableEq, Repr

/-- The persistent store: registered user ids, diagram rows, share rows. -/
structure ServerState where
  users : List Nat
  diagrams : List Diagram
  shares : List DiagramShare
deriving DecidableEq, Repr

/-- The fields a request body may carry for create/update
(`...req.body` is spread into the model write, so any model attribute
present in the body is written, including userId and isShared; absent
fields keep their stored value). `version` and `lastModifiedBy` may be
present but are always overridden by the controller's explicit values. -/
structure DiagramData where
  name : Option String := none
  database : Option String := none
  tables : Option String := none
  references : Option String := none
  notes : Option String := none
  areas : Option String := none
  todos : Option String := none
  userId : Option Nat := none
  isShared : Option Bool := none
  version : Option Nat := none
  lastModifiedBy : Option Nat := none
deriving DecidableEq, Repr

/-- Body of a PUT /:id request: `const { expectedVersion, ...diagramData } =
req.body`. `expectedVersion` is validated `.optional().isInt()`, so it can
be absent, zero, or any integer. -/
structure UpdateBody where
  expectedVersion : Option Int := none
  data : DiagramData := {}
deriving DecidableEq, Repr

/-- `Diagram.findByPk(id)` / `Diagram.findOne({ where: { id } })`. -/
def findByPk (s : ServerState) (id : Nat) : Option Diagram :=
  s.diagrams.find? (fun d => d.id == id)

/-- `Diagram.findOne({ where: { id, userId } })` — the ownership-scoped
lookup used by delete, shareDiagram, getShares, updateShare, revokeShare. -/
def findOwned (s : ServerState) (id userId : Nat) : Option Diagram :=
  s.diagrams.find? (fun d => d.id == id && d.userId == userId)

/-- Persisting an updated diagram row (`diagram.update(...)`): the row
with the same primary key is replaced. -/
def replaceById (l : List Diagram) (d : Diagram) : List Diagram :=
  l.map (fun x => if x.id == d.id then d else x)

/-- `DiagramShare.findOne({ where: { diagramId, sharedWithUserId,
permissionLevel: { [Op.in]: [EDITOR, OWNER] } } })` tested for existence
(diagram-controller.ts update, lines 176-186). -/
def hasEditShare (s : ServerState) (diagramId actorId : Nat) : Bool :=
  s.shares.any (fun sh =>
    sh.diagramId == diagramId && sh.sharedWithUserId == actorId &&
      (sh.permissionLevel == PermissionLevel.editor ||
        sh.permissionLevel == PermissionLevel.owner))

/-- The write performed on a successful update:
`diagram.update({ ...diagramData, version: diagram.version + 1,
lastModifiedBy: req.userId, lastModified: new Date() })`. The spread sets
every attribute present in the body; the three explicit keys come after
the spread and therefore always win. -/
def applyUpdate (d : Diagram) (b : DiagramData) (actorId now : Nat) : Diagram :=
  { id := d.id
    userId := b.userId.getD d.userId
    name := b.name.getD d.name
    database := b.database.getD d.database
    tables := b.tables.getD d.tables
    references := b.references.getD d.references
    notes := b.notes.getD d.notes
    areas := b.areas.getD d.areas
    todos := b.todos.getD d.todos
    gistId := d.gistId
    loadedFromGistId := d.loadedFromGistId
    isShared := b.isShared.getD d.isShared
    version := d.version + 1
    lastModifiedBy := actorId
    lastModified := now }

/-- Result of PUT /:id (diagram-controller.ts update): 404, 403
"No edit permission", 409 carrying the current row, or 200 with the
updated row. -/
inductive UpdateResult where
  | notFound
  | forbidden
  | conflict (current : Diagram)
  | ok (updated : Diagram)
deriving DecidableEq, Repr

/-- The committed branch of update: apply the write and store the row. -/
def commitUpdate (s : ServerState) (d : Diagram) (b : UpdateBody)
    (actorId now : Nat) : UpdateResult × ServerState :=
  let updated := applyUpdate d b.data actorId now
  (.ok updated, { s with diagrams := replaceById s.diagrams updated })

/-- DiagramController.update (diagram-controller.ts lines 144-233): find
and lock the row; 404 if absent; 403 unless the actor is the stored
userId or holds an editor/owner share; then
`if (expectedVersion && diagram.version !== expectedVersion)` → 409 with
the current row and no write; otherwise commit the merged write with
version + 1. JS truthiness: an absent or zero expectedVersion skips the
comparison. -/
def DiagramController.update (s : ServerState) (id actorId : Nat)
    (body : UpdateBody) (now : Nat) : UpdateResult × ServerState :=
  match findByPk s id with
  | none => (.notFound, s)
  | some diagram =>
    if actorId ≠ diagram.userId ∧ hasEditShare s id actorId = false then
      (.forbidden, s)
    else
      match body.expectedVersion with
      | some ev =>
        if ev ≠ 0 ∧ (diagram.version : Int) ≠ ev then
          (.conflict diagram, s)
        else
          commitUpdate s diagram body actorId now
      | none => commitUpdate s diagram body actorId now

/-- DiagramController.create (lines 117-141):
`Diagram.create({ ...req.body, userId: req.userId, lastModifiedBy:
req.userId, version: 1 })` — the three explicit keys override anything in
the body; remaining attributes take the body value or the model default. -/
def DiagramController.create (s : ServerState) (actorId : Nat)
    (b : DiagramData) (newId now : Nat) : Diagram × ServerState :=
  let d : Diagram :=
    { id := newId
      userId := actorId
      name := b.name.getD "Untitled Diagram"
      database := b.database.getD "generic"
      tables := b.tables.getD "[]"
      references := b.references.getD "[]"
      notes := b.notes.getD "[]"
      areas := b.areas.getD "[]"
      todos := b.todos.getD "[]"
      gistId := none
      loadedFromGistId := none
      isShared := b.isShared.getD false
      version := 1
      lastModifiedBy := actorId
      lastModified := now }
  (d, { s with diagrams := s.diagrams ++ [d] })

/-- Result of DELETE /:id (lines 236-264): the ownership-scoped findOne
means a missing diagram and a foreign requester get the same 404
"Diagram not found or access denied"; no 403 exists in this handler. -/
inductive DeleteResult where
  | notFound
  | deleted
deriving DecidableEq, Repr

/-- HTTP status sent for each DeleteResult. -/
def DeleteResult.status : DeleteResult → Nat
  | .notFound => 404
  | .deleted => 200

/-- DiagramController.delete: `Diagram.findOne({ where: { id, userId:
req.userId } })`; 404 when that lookup misses; otherwise destroy the row
(share rows cascade via the diagramId foreign key's onDelete CASCADE). -/
def DiagramController.delete (s : ServerState) (id actorId : Nat) :
    DeleteResult × ServerState :=
  match findOwned s id actorId with
  | none => (.notFound, s)
  | some _ =>
    (.deleted,
      { s with
        diagrams := s.diagrams.filter (fun x => x.id != id)
        shares := s.shares.filter (fun sh => sh.diagramId != id) })

/-- The version info returned by GET /:id/version (lines 267-300):
attributes id, version, lastModified, lastModifiedBy; no access check
beyond authentication. -/
structure VersionInfo where
  id : Nat
  version : Nat
  lastModified : Nat
  lastModifiedBy : Nat
deriving DecidableEq, Repr

/-- DiagramController.getVersion: findByPk with the version attributes;
404 when absent; otherwise the info, with no permission check. -/
def DiagramController.getVersion (s : ServerState) (id : Nat) :
    Option VersionInfo :=
  (findByPk s id).map fun d =>
    { id := d.id
      version := d.version
      lastModified := d.lastModified
      lastModifiedBy := d.lastModifiedBy }

/-- DiagramController.duplicate (lines 303-343): findByPk with no access
check; copy the row's JSON (minus id/createdAt/updatedAt), then create
with name + " (Copy)", userId and lastModifiedBy set to the requester,
version 1, gistId cleared, loadedFromGistId set to the original's gistId.
All content columns (tables, references, notes, areas, todos, database),
isShared and lastModified are copied from the original. Returns none on
404. -/
def DiagramController.duplicate (s : ServerState) (id actorId newId : Nat) :
    Option Diagram × ServerState :=
  match findByPk s id with
  | none => (none, s)
  | some orig =>
    let d : Diagram :=
      { orig with
        id := newId
        name := orig.name ++ " (Copy)"
        userId := actorId
        lastModifiedBy := actorId
        version := 1
        gistId := none
        loadedFromGistId := orig.gistId }
    (some d, { s with diagrams := s.diagrams ++ [d] })

/-- Result of POST /:id/sync (lines 346-383): 404, 409 carrying
`diagram.toJSON()` (the full current row), or 200 "In sync" with the
version. No permission check and no write. -/
inductive SyncResult where
  | notFound
  | conflict (current : Diagram)
  | inSync (version : Nat)
deriving DecidableEq, Repr

/-- DiagramController.sync: findByPk, then a direct
`diagram.version !== expectedVersion` comparison (no truthiness guard
here; the route validates expectedVersion as a required int). -/
def DiagramController.sync (s : ServerState) (id : Nat)
    (expectedVersion : Int) : SyncResult :=
  match findByPk s id with
  | none => .notFound
  | some d =>
    if (d.version : Int) ≠ expectedVersion then .conflict d
    else .inSync d.version

/-- Result of POST /:id/share (lines 386-448): 404 "Diagram not found or
access denied" from the ownership-scoped lookup, 404 "User not found",
409 "Diagram already shared with this user", or 201 with the new share.
No 403 exists in this handler. -/
inductive ShareResult where
  | notFoundOrDenied
  | userNotFound
  | alreadyShared
  | created (sh : DiagramShare)
deriving DecidableEq, Repr

/-- HTTP status sent for each ShareResult. -/
def ShareResult.status : ShareResult → Nat
  | .notFoundOrDenied => 404
  | .userNotFound => 404
  | .alreadyShared => 409
  | .created _ => 201

/-- DiagramController.shareDiagram: ownership-scoped findOne (creator
only); grantee must exist; an existing (diagramId, granteeId) entry gives
409 and no write; otherwise create the share and set isShared true. -/
def DiagramController.shareDiagram (s : ServerState)
    (id actorId granteeId : Nat) (level : PermissionLevel) :
    ShareResult × ServerState :=
  match findOwned s id actorId with
  | none => (.notFoundOrDenied, s)
  | some diagram =>
    if s.users.contains granteeId = false then (.userNotFound, s)
    else if s.shares.any (fun sh =>
        sh.diagramId == id && sh.sharedWithUserId == granteeId) then
      (.alreadyShared, s)
    else
      let sh : DiagramShare :=
        { diagramId := id
          sharedWithUserId := granteeId
          sharedByUserId := actorId
          permissionLevel := level }
      (.created sh,
        { s with
          shares := s.shares ++ [sh]
          diagrams := replaceById s.diagrams { diagram with isShared := true } })

/-- Result of PUT /:id/shares/:userId (lines 492-538): 404 from the
ownership-scoped lookup, 404 "Share not found", or 200 with the updated
share. No 403 exists in this handler. -/
inductive UpdateShareResult where
  | notFoundOrDenied
  | shareNotFound
  | ok (sh : DiagramShare)
deriving DecidableEq, Repr

/-- HTTP status sent for each UpdateShareResult. -/
def UpdateShareResult.status : UpdateShareResult → Nat
  | .notFoundOrDenied => 404
  | .shareNotFound => 404
  | .ok _ => 200

/-- Replace the (first) share row matching the (diagramId,
sharedWithUserId) key with its level updated — `share.update({
permissionLevel })` on the found instance. -/
def setShareLevel : List DiagramShare → Nat → Nat → PermissionLevel →
    List DiagramShare
  | [], _, _, _ => []
  | sh :: rest, did, gid, lv =>
    if sh.diagramId == did && sh.sharedWithUserId == gid then
      { sh with permissionLevel := lv } :: rest
    else sh :: setShareLevel rest did gid lv

/-- DiagramController.updateShare: ownership-scoped findOne (creator
only); then find the share by (diagramId, sharedWithUserId) and update
its level. -/
def DiagramController.updateShare (s : ServerState)
    (id actorId granteeId : Nat) (level : PermissionLevel) :
    UpdateShareResult × ServerState :=
  match findOwned s id actorId with
  | none => (.notFoundOrDenied, s)
  | some _ =>
    match s.shares.find? (fun sh =>
        sh.diagramId == id && sh.sharedWithUserId == granteeId) with
    | none => (.shareNotFound, s)
    | some sh =>
      (.ok { sh with permissionLevel := level },
        { s with shares := setShareLevel s.shares id granteeId level })

/-- Result of DELETE /:id/shares/:userId (lines 541-590): 404 from the
ownership-scoped lookup, 404 "Share not found" when destroy removed
nothing, or 200. No 403 exists in this handler. -/
inductive RevokeResult where
  | notFoundOrDenied
  | shareNotFound
  | revoked
deriving DecidableEq, Repr

/-- HTTP status sent for each RevokeResult. -/
def RevokeResult.status : RevokeResult → Nat
  | .notFoundOrDenied => 404
  | .shareNotFound => 404
  | .revoked => 200

/-- DiagramController.revokeShare: ownership-scoped findOne (creator
only); `DiagramShare.destroy({ where: { diagramId, sharedWithUserId } })`
deletes every matching row and returns the count; 404 when the count is
zero; then if no share for the diagram remains, set isShared false. -/
def DiagramController.revokeShare (s : ServerState)
    (id actorId granteeId : Nat) : RevokeResult × ServerState :=
  match findOwned s id actorId with
  | none => (.notFoundOrDenied, s)
  | some diagram =>
    let isTarget := fun (sh : DiagramShare) =>
      sh.diagramId == id && sh.sharedWithUserId == granteeId
    let deleted := (s.shares.filter isTarget).length
    let shares' := s.shares.filter (fun sh => !(isTarget sh))
    if deleted = 0 then (.shareNotFound, s)
    else
      let remaining := (shares'.filter (fun sh => sh.diagramId == id)).length
      let diagrams' :=
        if remaining = 0 then
          replaceById s.diagrams { diagram with isShared := false }
        else s.diagrams
      (.revoked, { s with shares := shares', diagrams := diagrams' })

/-- Effective permission levels of the access-control contract
(spec §4.2): none, viewer, editor, owner. -/
inductive EffPerm where
  | none
  | viewer
  | editor
  | owner
deriving DecidableEq, Repr

/-- Embed a share level into the effective-permission lattice. -/
def PermissionLevel.toEff : PermissionLevel → EffPerm
  | .viewer => .viewer
  | .editor => .editor
  | .owner => .owner

/-- Modelled from the spec (§4.2 Access Control Evaluator), the second
definition of a refinement pair: the controller inlines its permission
checks, and this function states the contract they are compared against.
If the actor is the stored userId, owner; else the level of the
(diagram, actor) share entry if one exists; else none. -/
def effectivePermission (s : ServerState) (actorId : Nat) (d : Diagram) :
    EffPerm :=
  if actorId = d.userId then .owner
  else
    match s.shares.find? (fun sh =>
        sh.diagramId == d.id && sh.sharedWithUserId == actorId) with
    | some sh => sh.permissionLevel.toEff
    | none => .none

/-- The unique composite index unique_diagram_user on (diagram_id,
shared_with_user_id) (models/DiagramShare.ts): no two share rows carry
the same key. -/
def sharesUnique (l : List DiagramShare) : Prop :=
  l.Pairwise (fun a b =>
    ¬(a.diagramId = b.diagramId ∧ a.sharedWithUserId = b.sharedWithUserId))

/-! ### Concrete states used by counterexamples and witnesses -/

/-- A stored diagram: id 1, created by user 10, version 2. -/
def c1D : Diagram :=
  { id := 1, userId := 10, name := "D", database := "generic",
    tables := "T1", references := "R1", notes := "N1", areas := "A1",
    todos := "L1", gistId := none, loadedFromGistId := none,
    version := 2, lastModifiedBy := 10, lastModified := 50, isShared := false }

/-- Store holding only c1D, no shares. -/
def c1S : ServerState := { users := [10, 20], diagrams := [c1D], shares := [] }

/-- An update request carrying expectedVersion 0 and a new tables payload. -/
def c1Body : UpdateBody :=
  { expectedVersion := some 0, data := { tables := some "T2" } }

/-- A shared diagram: id 1, created by user 10, shared to user 20 at
owner level. -/
def c2D : Diagram :=
  { id := 1, userId := 10, name := "D", database := "generic",
    tables := "T1", references := "R1", notes := "N1", areas := "A1",
    todos := "L1", gistId := none, loadedFromGistId := none,
    version := 1, lastModifiedBy := 10, lastModified := 50, isShared := true }

/-- Store with c2D and an owner-level share entry for user 20. -/
def c2S : ServerState :=
  { users := [10, 20, 30], diagrams := [c2D],
    shares := [{ diagramId := 1, sharedWithUserId := 20,
                 sharedByUserId := 10, permissionLevel := .owner }] }

/-- A diagram shared to user 20 at editor level (store c5S). -/
def c5S : ServerState :=
  { users := [10, 20], diagrams := [c2D],
    shares := [{ diagramId := 1, sharedWithUserId := 20,
                 sharedByUserId := 10, permissionLevel := .editor }] }

/-- An update request whose spread body smuggles userId := 20 alongside a
payload change, with a matching expectedVersion. -/
def c5Body : UpdateBody :=
  { expectedVersion := some 1, data := { tables := some "T2", userId := some 20 } }

/-! ### C1 -/

/-- C1 counterexample: a mutation request by the creator with
expectedVersion 0 on a document stored at version 2. The claim says a
non-equal expectedVersion ends Conflicted with no write; the code's
truthiness guard (`expectedVersion && ...`) skips the comparison for 0,
commits the new payload and advances the version. -/
theorem update_zero_expectedVersion_commits :
    c1Body.expectedVersion = some 0 ∧ c1D.version = 2 ∧ (0 : Int) ≠ (2 : Int) ∧
    (DiagramController.update c1S 1 10 c1Body 99).1 =
      .ok (applyUpdate c1D c1Body.data 10 99) ∧
    (applyUpdate c1D c1Body.data 10 99).version = 3 ∧
    (applyUpdate c1D c1Body.data 10 99).tables = "T2" ∧
    (DiagramController.update c1S 1 10 c1Body 99).2 ≠ c1S := by
  decide

/-- C1 amended: for a mutation request on an existing document by an
actor with mutation rights that supplies a nonzero expectedVersion, the
comparison happens as claimed: mismatch ends Conflicted with the current
document and an unchanged store, and the payload is written with the
version advanced exactly when expectedVersion equals the stored version.
(An absent or zero expectedVersion skips the comparison and commits
unconditionally.) -/
theorem update_compares_nonzero_expectedVersion (s : ServerState)
    (id actorId now : Nat) (body : UpdateBody) (ev : Int) (d : Diagram)
    (hfind : findByPk s id = some d)
    (hperm : actorId = d.userId ∨ hasEditShare s id actorId = true)
    (hev : body.expectedVersion = some ev) (hnz : ev ≠ 0) :
    (((d.version : Int) ≠ ev →
        DiagramController.update s id actorId body now = (.conflict d, s)) ∧
      ((d.version : Int) = ev →
        DiagramController.update s id actorId body now =
          (.ok (applyUpdate d body.data actorId now),
            { s with diagrams :=
                replaceById s.diagrams (applyUpdate d body.data actorId now) }) ∧
        (applyUpdate d body.data actorId now).version = d.version + 1 ∧
        (applyUpdate d body.data actorId now).tables =
          body.data.tables.getD d.tables)) := by
  have hcond : ¬(actorId ≠ d.userId ∧ hasEditShare s id actorId = false) := by
    rcases hperm with h | h
    · exact fun hc => hc.1 h
    · exact fun hc => by rw [h] at hc; exact absurd hc.2 (by simp)
  constructor
  · intro hne
    simp only [DiagramController.update, hfind, if_neg hcond, hev,
      if_pos (And.intro hnz hne)]
  · intro heq
    refine ⟨?_, rfl, rfl⟩
    have : ¬(ev ≠ 0 ∧ (d.version : Int) ≠ ev) := fun hc => hc.2 heq
    simp only [DiagramController.update, hfind, if_neg hcond, hev,
      if_neg this, commitUpdate]

/-- Witness for the amended C1 theorem at a concrete mismatch: store c1S
holds c1D at version 2, the creator sends expectedVersion 7. -/
theorem update_compares_nonzero_expectedVersion_witness :
    (((c1D.version : Int) ≠ 7 →
        DiagramController.update c1S 1 10 { expectedVersion := some 7 } 99 =
          (.conflict c1D, c1S)) ∧
      ((c1D.version : Int) = 7 →
        DiagramController.update c1S 1 10 { expectedVersion := some 7 } 99 =
          (.ok (applyUpdate c1D ({} : DiagramData) 10 99),
            { c1S with diagrams :=
                replaceById c1S.diagrams (applyUpdate c1D ({} : DiagramData) 10 99) }) ∧
        (applyUpdate c1D ({} : DiagramData) 10 99).version = c1D.version + 1 ∧
        (applyUpdate c1D ({} : DiagramData) 10 99).tables =
          (({} : DiagramData).tables).getD c1D.tables)) :=
  update_compares_nonzero_expectedVersion c1S 1 10 99
    { expectedVersion := some 7 } 7 c1D (by decide) (Or.inl (by decide))
    (by decide) (by decide)

/-! ### C2 -/

/-- C2 counterexample: user 20 holds an owner-level share on c2D, so
their effective permission is owner, yet grant, updateLevel and revoke
by user 20 all fail (with the 404 "Diagram not found or access denied",
not 403); and user 30, whose effective permission is none, also does not
receive Forbidden. -/
theorem shareOps_refuse_owner_grantee_with_notFound :
    effectivePermission c2S 20 c2D = .owner ∧ 20 ≠ c2D.userId ∧
    (DiagramController.shareDiagram c2S 1 20 30 .viewer).1 = .notFoundOrDenied ∧
    (DiagramController.shareDiagram c2S 1 20 30 .viewer).1.status = 404 ∧
    (DiagramController.updateShare c2S 1 20 20 .editor).1 = .notFoundOrDenied ∧
    (DiagramController.revokeShare c2S 1 20 20).1 = .notFoundOrDenied ∧
    effectivePermission c2S 30 c2D = .none ∧
    (DiagramController.shareDiagram c2S 1 30 20 .viewer).1.status ≠ 403 := by
  decide

/-- C2 amended: the share-management operations never return Forbidden
(403); each fails with the 404 "Diagram not found or access denied"
exactly when the requester is not the creator of record — no diagram row
with that id has userId equal to the requester — so a grantee holding an
owner-level share entry is refused with NotFound, and only the creator
can manage shares. -/
theorem shareOps_creator_only_never_forbidden (s : ServerState)
    (id req g : Nat) (lv : PermissionLevel) :
    ((DiagramController.shareDiagram s id req g lv).1.status ≠ 403 ∧
      (DiagramController.updateShare s id req g lv).1.status ≠ 403 ∧
      (DiagramController.revokeShare s id req g).1.status ≠ 403) ∧
    ((DiagramController.shareDiagram s id req g lv).1 = .notFoundOrDenied ↔
      findOwned s id req = none) ∧
    ((DiagramController.updateShare s id req g lv).1 = .notFoundOrDenied ↔
      findOwned s id req = none) ∧
    ((DiagramController.revokeShare s id req g).1 = .notFoundOrDenied ↔
      findOwned s id req = none) := by
  cases h : findOwned s id req with
  | none =>
    simp [DiagramController.shareDiagram, DiagramController.updateShare,
      DiagramController.revokeShare, h, ShareResult.status,
      UpdateShareResult.status, RevokeResult.status]
  | some d =>
    refine ⟨⟨?_, ?_, ?_⟩, ?_, ?_, ?_⟩ <;>
      simp only [DiagramController.shareDiagram, DiagramController.updateShare,
        DiagramController.revokeShare, h] <;>
      split <;>
      simp_all [ShareResult.status, UpdateShareResult.status,
        RevokeResult.status] <;>
      split <;>
      simp_all [ShareResult.status, UpdateShareResult.status,
        RevokeResult.status]

/-! ### C4 -/

/-- C4 counterexample: c2D exists (id 1) and user 20 even holds an
owner-level share, yet delete(1, 20) returns NotFound (status 404, the
conflated "Diagram not found or access denied"), not Forbidden, and the
store is unchanged. -/
theorem delete_foreign_requester_gets_notFound :
    findByPk c2S 1 = some c2D ∧
    effectivePermission c2S 20 c2D = .owner ∧
    DiagramController.delete c2S 1 20 = (.notFound, c2S) ∧
    (DiagramController.delete c2S 1 20).1.status = 404 ∧
    (DiagramController.delete c2S 1 20).1.status ≠ 403 := by
  decide

/-- C4 amended: delete returns Deleted exactly when a diagram row with
the requested id and userId equal to the requester exists (the requester
is the creator); in every other case — the id does not exist, or the
document exists but the requester is not the creator, even one holding an
owner-level share — it returns the same NotFound, and Forbidden (403) is
never returned. -/
theorem delete_deleted_iff_creator (s : ServerState) (id req : Nat) :
    ((DiagramController.delete s id req).1 = .deleted ↔
      findOwned s id req ≠ none) ∧
    (DiagramController.delete s id req).1.status ≠ 403 := by
  cases h : findOwned s id req <;>
    simp [DiagramController.delete, h, DeleteResult.status]

/-! ### C5 -/

/-- C5: the update write spreads the request body, so a request whose
body carries userId := 20 transfers ownership of the stored row from the
creator (user 10) to the editor-grantee actor 20 — the stored userId
changes on a successful mutate, contradicting the immutability of the
creator field. -/
theorem update_body_userId_overwrites_owner :
    c2D.userId = 10 ∧ c5Body.data.userId = some 20 ∧
    (DiagramController.update c5S 1 20 c5Body 77).1 =
      .ok (applyUpdate c2D c5Body.data 20 77) ∧
    (applyUpdate c2D c5Body.data 20 77).userId = 20 ∧
    findByPk (DiagramController.update c5S 1 20 c5Body 77).2 1 =
      some (applyUpdate c2D c5Body.data 20 77) := by
  decide

/-! ### C3 -/

/-- C3: duplicate, sync and getVersion perform no permission check. For
an existing document and an actor whose effective permission is none,
duplicate succeeds and returns a new document owned by the actor that
carries every content column of the original; sync with a non-matching
expectedVersion returns the full current row in its conflict response;
and getVersion returns the version, lastModified and lastModifiedBy. -/
theorem duplicate_sync_getVersion_skip_permission (s : ServerState)
    (id actorId newId : Nat) (v : Int) (d : Diagram)
    (hfind : findByPk s id = some d)
    (hperm : effectivePermission s actorId d = .none)
    (hv : (d.version : Int) ≠ v) :
    (∃ nd s', DiagramController.duplicate s id actorId newId = (some nd, s') ∧
      nd.userId = actorId ∧ nd.tables = d.tables ∧ nd.references = d.references ∧
      nd.notes = d.notes ∧ nd.areas = d.areas ∧ nd.todos = d.todos ∧
      nd.database = d.database ∧ nd ∈ s'.diagrams) ∧
    DiagramController.sync s id v = .conflict d ∧
    DiagramController.getVersion s id =
      some { id := d.id, version := d.version, lastModified := d.lastModified,
             lastModifiedBy := d.lastModifiedBy } := by
  refine ⟨?_, ?_, ?_⟩
  · simp only [DiagramController.duplicate, hfind]
    exact ⟨_, _, rfl, rfl, rfl, rfl, rfl, rfl, rfl, rfl, by simp⟩
  · simp only [DiagramController.sync, hfind, if_pos hv]
  · simp [DiagramController.getVersion, hfind]

/-- A store for the C3 witness: diagram 1 owned by user 10; user 30 has
no share entry. -/
def c3S : ServerState := { users := [10, 30], diagrams := [c1D], shares := [] }

/-- Witness for C3: user 30, whose effective permission on c1D is none,
duplicates it, sees the full row via sync's conflict answer (stored
version 2, expectedVersion 9), and reads its version info. -/
theorem duplicate_sync_getVersion_skip_permission_witness :
    (∃ nd s', DiagramController.duplicate c3S 1 30 7 = (some nd, s') ∧
      nd.userId = 30 ∧ nd.tables = c1D.tables ∧ nd.references = c1D.references ∧
      nd.notes = c1D.notes ∧ nd.areas = c1D.areas ∧ nd.todos = c1D.todos ∧
      nd.database = c1D.database ∧ nd ∈ s'.diagrams) ∧
    DiagramController.sync c3S 1 9 = .conflict c1D ∧
    DiagramController.getVersion c3S 1 =
      some { id := c1D.id, version := c1D.version,
             lastModified := c1D.lastModified,
             lastModifiedBy := c1D.lastModifiedBy } :=
  duplicate_sync_getVersion_skip_permission c3S 1 30 7 9 c1D (by decide)
    (by decide) (by decide)

/-! ### C6 -/

/-- Under the unique composite key, the editor-or-owner share lookup of
the update handler agrees with looking up the unique (diagram, actor)
entry and checking its level. -/
theorem any_edit_of_unique (l : List DiagramShare) (did aid : Nat)
    (hu : sharesUnique l) :
    (l.any fun sh => sh.diagramId == did && sh.sharedWithUserId == aid &&
        (sh.permissionLevel == PermissionLevel.editor ||
          sh.permissionLevel == PermissionLevel.owner)) =
      (match l.find? (fun sh =>
          sh.diagramId == did && sh.sharedWithUserId == aid) with
        | some sh => (sh.permissionLevel == PermissionLevel.editor ||
            sh.permissionLevel == PermissionLevel.owner)
        | none => false) := by
  induction l with
  | nil => rfl
  | cons x rest ih =>
    rcases List.pairwise_cons.mp hu with ⟨hx, hrest⟩
    cases hkey : (x.diagramId == did && x.sharedWithUserId == aid) with
    | false => simp [List.any_cons, List.find?_cons, hkey, ih hrest]
    | true =>
      have hxdid : x.diagramId = did := by
        have := (Bool.and_eq_true _ _).mp hkey
        simpa using this.1
      have hxaid : x.sharedWithUserId = aid := by
        have := (Bool.and_eq_true _ _).mp hkey
        simpa using this.2
      have hnone : (rest.any fun sh =>
          sh.diagramId == did && sh.sharedWithUserId == aid &&
            (sh.permissionLevel == PermissionLevel.editor ||
              sh.permissionLevel == PermissionLevel.owner)) = false := by
        rw [List.any_eq_false]
        intro sh hsh hcontra
        have h1 := (Bool.and_eq_true _ _).mp hcontra
        have h2 := (Bool.and_eq_true _ _).mp h1.1
        have hd2 : sh.diagramId = did := by simpa using h2.1
        have ha2 : sh.sharedWithUserId = aid := by simpa using h2.2
        exact hx sh hsh ⟨hxdid.trans hd2.symm, hxaid.trans ha2.symm⟩
      simp [List.any_cons, List.find?_cons, hkey, hnone]

/-- C6: for an existing document, the update handler answers Forbidden
exactly when the actor's effective permission is neither editor nor
owner; in particular the creator and every editor- or owner-level
grantee is never rejected as Forbidden. Uses the unique composite key
guaranteed by the unique_diagram_user index. -/
theorem update_forbidden_iff_permission (s : ServerState)
    (id actorId now : Nat) (body : UpdateBody) (d : Diagram)
    (hu : sharesUnique s.shares) (hfind : findByPk s id = some d) :
    ((DiagramController.update s id actorId body now).1 = .forbidden ↔
      (effectivePermission s actorId d ≠ .editor ∧
        effectivePermission s actorId d ≠ .owner)) := by
  have hid : d.id = id := by
    have := List.find?_some hfind
    simpa using this
  have hL : ((DiagramController.update s id actorId body now).1 = .forbidden ↔
      (actorId ≠ d.userId ∧ hasEditShare s id actorId = false)) := by
    by_cases hc : actorId ≠ d.userId ∧ hasEditShare s id actorId = false
    · simp [DiagramController.update, hfind, hc]
    · simp only [DiagramController.update, hfind, if_neg hc]
      cases hev : body.expectedVersion with
      | none => simp [commitUpdate, hc]
      | some ev =>
        by_cases hm : ev ≠ 0 ∧ (d.version : Int) ≠ ev
        · simp [if_pos hm, hc]
        · simp [if_neg hm, commitUpdate, hc]
  rw [hL]
  by_cases ho : actorId = d.userId
  · simp [effectivePermission, ho]
  · have hedit := any_edit_of_unique s.shares id actorId hu
    simp only [effectivePermission, if_neg ho, hid]
    cases hf : s.shares.find? (fun sh =>
        sh.diagramId == id && sh.sharedWithUserId == actorId) with
    | none => simp [hasEditShare, hedit, hf, ho]
    | some sh =>
      simp only [hasEditShare, hedit, hf, ho]
      cases sh.permissionLevel <;> simp [PermissionLevel.toEff, ho]

/-- A store for the C6 witness: diagram 1 owned by 10, user 30 holds a
viewer share. -/
def c6S : ServerState :=
  { users := [10, 30], diagrams := [c1D],
    shares := [{ diagramId := 1, sharedWithUserId := 30,
                 sharedByUserId := 10, permissionLevel := .viewer }] }

/-- Witness for C6 at the viewer grantee 30. -/
theorem update_forbidden_iff_permission_witness :
    ((DiagramController.update c6S 1 30 { expectedVersion := some 2 } 9).1 =
        .forbidden ↔
      (effectivePermission c6S 30 c1D ≠ .editor ∧
        effectivePermission c6S 30 c1D ≠ .owner)) :=
  update_forbidden_iff_permission c6S 1 30 9 { expectedVersion := some 2 } c1D
    (by simp [sharesUnique, c6S]) (by decide)

/-! ### C7 -/

/-- C7: whenever the update handler answers Conflicted, the carried
document is exactly the stored row — every field, version, payload,
lastModifiedBy and lastModified included, unmodified — and the store is
left in exactly its prior state. -/
theorem update_conflict_carries_current_unchanged (s : ServerState)
    (id actorId now : Nat) (body : UpdateBody) (c : Diagram)
    (h : (DiagramController.update s id actorId body now).1 = .conflict c) :
    findByPk s id = some c ∧
    (DiagramController.update s id actorId body now).2 = s := by
  cases hf : findByPk s id with
  | none => simp [DiagramController.update, hf] at h
  | some d =>
    by_cases hc : actorId ≠ d.userId ∧ hasEditShare s id actorId = false
    · simp [DiagramController.update, hf, hc] at h
    · cases hev : body.expectedVersion with
      | none =>
        simp [DiagramController.update, hf, if_neg hc, hev, commitUpdate] at h
      | some ev =>
        by_cases hm : ev ≠ 0 ∧ (d.version : Int) ≠ ev
        · have hres : DiagramController.update s id actorId body now =
              (.conflict d, s) := by
            simp [DiagramController.update, hf, if_neg hc, hev, if_pos hm]
          rw [hres] at h ⊢
          obtain rfl : d = c := by simpa using h
          exact ⟨rfl, rfl⟩
        · simp [DiagramController.update, hf, if_neg hc, hev, if_neg hm,
            commitUpdate] at h

/-- Witness for C7: the creator sends expectedVersion 7 against stored
version 2; the conflict carries c1D and the store is untouched. -/
theorem update_conflict_carries_current_unchanged_witness :
    findByPk c1S 1 = some c1D ∧
    (DiagramController.update c1S 1 10 { expectedVersion := some 7 } 99).2 =
      c1S :=
  update_conflict_carries_current_unchanged c1S 1 10 99
    { expectedVersion := some 7 } c1D (by decide)

/-! ### C8 -/

/-- The primary-key constraint of the diagrams table: row ids are
pairwise distinct. -/
def diagramIdsUnique (l : List Diagram) : Prop :=
  l.Pairwise fun a b => a.id ≠ b.id

/-- Membership after a row replacement: every row of the result is an
old row or the replacement. -/
theorem mem_replaceById (l : List Diagram) (d x : Diagram)
    (h : x ∈ replaceById l d) : x ∈ l ∨ x = d := by
  rcases List.mem_map.mp h with ⟨y, hy, hxy⟩
  by_cases hc : (y.id == d.id) = true
  · right; rw [← hxy]; simp [hc]
  · left
    have hyy : (if y.id == d.id then d else y) = y := by simp [hc]
    rw [← hxy, hyy]; exact hy

/-- Replacing a stored row by a row with the same id and version leaves
the version column of every row unchanged (ids unique). -/
theorem replaceById_map_version (l : List Diagram) (d0 d : Diagram)
    (hl : l.Pairwise fun a b => a.id ≠ b.id) (hmem : d0 ∈ l)
    (hid : d.id = d0.id) (hv : d.version = d0.version) :
    (replaceById l d).map Diagram.version = l.map Diagram.version := by
  induction l with
  | nil => rfl
  | cons x rest ih =>
    rcases List.pairwise_cons.mp hl with ⟨hx, hrest⟩
    rcases List.mem_cons.mp hmem with rfl | hmem'
    · have hcond : (d0.id == d.id) = true := by simp [hid]
      have htail : (replaceById rest d).map Diagram.version =
          rest.map Diagram.version := by
        have hrm : replaceById rest d = rest.map id := by
          apply List.map_eq_map_iff.mpr
          intro y hy
          have hyfalse : (y.id == d.id) = false := by
            simp only [beq_eq_false_iff_ne, ne_eq, hid]
            exact fun hcontra => hx y hy hcontra.symm
          simp [hyfalse]
        rw [hrm, List.map_id]
      have hstep : replaceById (d0 :: rest) d = d :: replaceById rest d := by
        show (if (d0.id == d.id) = true then d else d0) :: replaceById rest d =
          d :: replaceById rest d
        rw [if_pos hcond]
      rw [hstep, List.map_cons, List.map_cons, hv, htail]
    · have hxd : (x.id == d.id) = false := by
        simp only [beq_eq_false_iff_ne, ne_eq, hid]
        exact fun hcontra => hx d0 hmem' hcontra
      have hstep : replaceById (x :: rest) d = x :: replaceById rest d := by
        show (if (x.id == d.id) = true then d else x) :: replaceById rest d =
          x :: replaceById rest d
        rw [if_neg (ne_true_of_eq_false hxd)]
      rw [hstep, List.map_cons, List.map_cons, ih hrest hmem']

/-- C8: version discipline of the store. Documents are created and
duplicated at version 1; a committed update writes version + 1 together
with the merged payload, lastModifiedBy and lastModified in the single
stored row it replaces; and no other operation — grant, updateLevel,
revoke, delete (sync and getVersion return no state at all) — changes
the version of any surviving row. Row ids are unique (primary key). -/
theorem version_lifecycle (s : ServerState)
    (id actorId granteeId newId now : Nat) (b : DiagramData)
    (body : UpdateBody) (lv : PermissionLevel)
    (hids : diagramIdsUnique s.diagrams) :
    ((DiagramController.create s actorId b newId now).1.version = 1) ∧
    (∀ y ∈ (DiagramController.create s actorId b newId now).2.diagrams,
      y ∈ s.diagrams ∨ y.version = 1) ∧
    (∀ nd s', DiagramController.duplicate s id actorId newId = (some nd, s') →
      nd.version = 1) ∧
    (∀ r s', DiagramController.duplicate s id actorId newId = (r, s') →
      ∀ y ∈ s'.diagrams, y ∈ s.diagrams ∨ y.version = 1) ∧
    (∀ u, (DiagramController.update s id actorId body now).1 = .ok u →
      ∃ d, findByPk s id = some d ∧
        u = applyUpdate d body.data actorId now ∧
        u.version = d.version + 1 ∧ u.lastModifiedBy = actorId ∧
        u.lastModified = now ∧
        (DiagramController.update s id actorId body now).2.diagrams =
          replaceById s.diagrams u) ∧
    (∀ x ∈ (DiagramController.update s id actorId body now).2.diagrams,
      x ∈ s.diagrams ∨
        (DiagramController.update s id actorId body now).1 = .ok x) ∧
    ((DiagramController.shareDiagram s id actorId granteeId lv).2.diagrams.map
        Diagram.version = s.diagrams.map Diagram.version) ∧
    ((DiagramController.updateShare s id actorId granteeId lv).2.diagrams =
      s.diagrams) ∧
    ((DiagramController.revokeShare s id actorId granteeId).2.diagrams.map
        Diagram.version = s.diagrams.map Diagram.version) ∧
    (∀ x ∈ (DiagramController.delete s id actorId).2.diagrams,
      x ∈ s.diagrams) := by
  refine ⟨rfl, ?_, ?_, ?_, ?_, ?_, ?_, ?_, ?_, ?_⟩
  · intro y hy
    simp only [DiagramController.create, List.mem_append,
      List.mem_singleton] at hy
    rcases hy with hy | rfl
    · exact Or.inl hy
    · exact Or.inr rfl
  · intro nd s' hdup
    cases hf : findByPk s id with
    | none => simp [DiagramController.duplicate, hf] at hdup
    | some d =>
      simp only [DiagramController.duplicate, hf, Prod.mk.injEq,
        Option.some.injEq] at hdup
      rcases hdup with ⟨rfl, -⟩
      rfl
  · intro r s' hdup y hy
    cases hf : findByPk s id with
    | none =>
      simp only [DiagramController.duplicate, hf, Prod.mk.injEq] at hdup
      rcases hdup with ⟨-, rfl⟩
      exact Or.inl hy
    | some d =>
      simp only [DiagramController.duplicate, hf, Prod.mk.injEq] at hdup
      rcases hdup with ⟨-, rfl⟩
      simp only [List.mem_append, List.mem_singleton] at hy
      rcases hy with hy | rfl
      · exact Or.inl hy
      · exact Or.inr rfl
  · intro u hok
    cases hf : findByPk s id with
    | none => simp [DiagramController.update, hf] at hok
    | some d =>
      by_cases hc : actorId ≠ d.userId ∧ hasEditShare s id actorId = false
      · simp [DiagramController.update, hf, hc] at hok
      · cases hev : body.expectedVersion with
        | none =>
          have hres : DiagramController.update s id actorId body now =
              (.ok (applyUpdate d body.data actorId now),
                { s with
                    diagrams :=
                      replaceById s.diagrams
                        (applyUpdate d body.data actorId now) }) := by
            simp [DiagramController.update, hf, if_neg hc, hev, commitUpdate]
          rw [hres] at hok
          obtain rfl : applyUpdate d body.data actorId now = u := by
            simpa using hok
          exact ⟨d, rfl, rfl, rfl, rfl, rfl, by rw [hres]⟩
        | some ev =>
          by_cases hm : ev ≠ 0 ∧ (d.version : Int) ≠ ev
          · simp [DiagramController.update, hf, if_neg hc, hev,
              if_pos hm] at hok
          · have hres : DiagramController.update s id actorId body now =
                (.ok (applyUpdate d body.data actorId now),
                  { s with
                      diagrams :=
                        replaceById s.diagrams
                          (applyUpdate d body.data actorId now) }) := by
              simp [DiagramController.update, hf, if_neg hc, hev, if_neg hm,
                commitUpdate]
            rw [hres] at hok
            obtain rfl : applyUpdate d body.data actorId now = u := by
              simpa using hok
            exact ⟨d, rfl, rfl, rfl, rfl, rfl, by rw [hres]⟩
  · intro x hx
    cases hf : findByPk s id with
    | none =>
      simp only [DiagramController.update, hf] at hx
      exact Or.inl hx
    | some d =>
      by_cases hc : actorId ≠ d.userId ∧ hasEditShare s id actorId = false
      · simp only [DiagramController.update, hf, if_pos hc] at hx
        exact Or.inl hx
      · cases hev : body.expectedVersion with
        | none =>
          have hres : DiagramController.update s id actorId body now =
              (.ok (applyUpdate d body.data actorId now),
                { s with
                    diagrams :=
                      replaceById s.diagrams
                        (applyUpdate d body.data actorId now) }) := by
            simp [DiagramController.update, hf, if_neg hc, hev, commitUpdate]
          rw [hres] at hx ⊢
          rcases mem_replaceById _ _ _ hx with hmem | rfl
          · exact Or.inl hmem
          · exact Or.inr rfl
        | some ev =>
          by_cases hm : ev ≠ 0 ∧ (d.version : Int) ≠ ev
          · have hres : DiagramController.update s id actorId body now =
                (.conflict d, s) := by
              simp [DiagramController.update, hf, if_neg hc, hev, if_pos hm]
            rw [hres] at hx
            exact Or.inl hx
          · have hres : DiagramController.update s id actorId body now =
                (.ok (applyUpdate d body.data actorId now),
                  { s with
                      diagrams :=
                        replaceById s.diagrams
                          (applyUpdate d body.data actorId now) }) := by
              simp [DiagramController.update, hf, if_neg hc, hev, if_neg hm,
                commitUpdate]
            rw [hres] at hx ⊢
            rcases mem_replaceById _ _ _ hx with hmem | rfl
            · exact Or.inl hmem
            · exact Or.inr rfl
  · cases hf : findOwned s id actorId with
    | none => simp [DiagramController.shareDiagram, hf]
    | some diagram =>
      simp only [DiagramController.shareDiagram, hf]
      split
      · rfl
      · split
        · rfl
        · exact replaceById_map_version s.diagrams diagram _ hids
            (List.mem_of_find?_eq_some hf) rfl rfl
  · cases hf : findOwned s id actorId with
    | none => simp [DiagramController.updateShare, hf]
    | some diagram =>
      simp only [DiagramController.updateShare, hf]
      split <;> rfl
  · cases hf : findOwned s id actorId with
    | none => simp [DiagramController.revokeShare, hf]
    | some diagram =>
      simp only [DiagramController.revokeShare, hf]
      split
      · rfl
      · split
        · exact replaceById_map_version s.diagrams diagram _ hids
            (List.mem_of_find?_eq_some hf) rfl rfl
        · rfl
  · intro x hx
    cases hf : findOwned s id actorId with
    | none =>
      simp only [DiagramController.delete, hf] at hx
      exact hx
    | some diagram =>
      simp only [DiagramController.delete, hf] at hx
      exact List.mem_of_mem_filter hx

/-- Witness for C8 at the concrete store c2S (diagram 1 owned by 10,
owner share for 20). -/
theorem version_lifecycle_witness :
    ((DiagramController.create c2S 10 {} 5 7).1.version = 1) ∧
    (∀ y ∈ (DiagramController.create c2S 10 {} 5 7).2.diagrams,
      y ∈ c2S.diagrams ∨ y.version = 1) ∧
    (∀ nd s', DiagramController.duplicate c2S 1 10 5 = (some nd, s') →
      nd.version = 1) ∧
    (∀ r s', DiagramController.duplicate c2S 1 10 5 = (r, s') →
      ∀ y ∈ s'.diagrams, y ∈ c2S.diagrams ∨ y.version = 1) ∧
    (∀ u, (DiagramController.update c2S 1 10 { expectedVersion := some 1 } 7).1 =
        .ok u →
      ∃ d, findByPk c2S 1 = some d ∧
        u = applyUpdate d ({} : DiagramData) 10 7 ∧
        u.version = d.version + 1 ∧ u.lastModifiedBy = 10 ∧
        u.lastModified = 7 ∧
        (DiagramController.update c2S 1 10 { expectedVersion := some 1 } 7).2.diagrams =
          replaceById c2S.diagrams u) ∧
    (∀ x ∈ (DiagramController.update c2S 1 10 { expectedVersion := some 1 } 7).2.diagrams,
      x ∈ c2S.diagrams ∨
        (DiagramController.update c2S 1 10 { expectedVersion := some 1 } 7).1 =
          .ok x) ∧
    ((DiagramController.shareDiagram c2S 1 10 20 .viewer).2.diagrams.map
        Diagram.version = c2S.diagrams.map Diagram.version) ∧
    ((DiagramController.updateShare c2S 1 10 20 .viewer).2.diagrams =
      c2S.diagrams) ∧
    ((DiagramController.revokeShare c2S 1 10 20).2.diagrams.map
        Diagram.version = c2S.diagrams.map Diagram.version) ∧
    (∀ x ∈ (DiagramController.delete c2S 1 10).2.diagrams, x ∈ c2S.diagrams) :=
  version_lifecycle c2S 1 10 20 5 7 {} { expectedVersion := some 1 } .viewer
    (by simp [diagramIdsUnique, c2S])

/-! ### C9 -/

/-- A row found by id alone that belongs to the given user is also the
row found by the (id, userId)-scoped predicate. -/
theorem find?_owned_of_find?_id (l : List Diagram) (id uid : Nat) (d : Diagram)
    (hfind : l.find? (fun x => x.id == id) = some d) (hown : d.userId = uid) :
    l.find? (fun x => x.id == id && x.userId == uid) = some d := by
  induction l with
  | nil => simp at hfind
  | cons x rest ih =>
    rw [List.find?_cons] at hfind ⊢
    cases hx : (x.id == id) with
    | true =>
      rw [hx] at hfind
      obtain rfl : x = d := by simpa using hfind
      simp [hown]
    | false =>
      rw [hx] at hfind
      simp only [hx, Bool.false_and]
      exact ih hfind

/-- If the row found by id alone belongs to the given user, the
ownership-scoped lookup finds the same row. -/
theorem findOwned_of_findByPk (s : ServerState) (id uid : Nat) (d : Diagram)
    (hfind : findByPk s id = some d) (hown : d.userId = uid) :
    findOwned s id uid = some d :=
  find?_owned_of_find?_id s.diagrams id uid d hfind hown

/-- Replacing the found row by a row with the same id makes the
id-lookup find the replacement. -/
theorem find?_replaceById (l : List Diagram) (id : Nat) (d d' : Diagram)
    (hf : l.find? (fun x => x.id == id) = some d) (hid : d'.id = d.id) :
    (replaceById l d').find? (fun x => x.id == id) = some d' := by
  have hdid : d.id = id := by simpa using List.find?_some hf
  induction l with
  | nil => simp at hf
  | cons x rest ih =>
    rw [List.find?_cons] at hf
    cases hx : (x.id == id) with
    | true =>
      rw [hx] at hf
      obtain rfl : x = d := by simpa using hf
      have hrepl : (x.id == d'.id) = true := by simp [hid]
      have hstep : replaceById (x :: rest) d' = d' :: replaceById rest d' := by
        show (if (x.id == d'.id) = true then d' else x) :: replaceById rest d' =
          d' :: replaceById rest d'
        rw [if_pos hrepl]
      rw [hstep, List.find?_cons]
      have : (d'.id == id) = true := by simp [hid, hdid]
      simp [this]
    | false =>
      rw [hx] at hf
      have hxne : x.id ≠ id := by simpa using hx
      have hrepl : (x.id == d'.id) = false := by
        simp only [beq_eq_false_iff_ne, ne_eq, hid, hdid]
        exact hxne
      have hstep : replaceById (x :: rest) d' = x :: replaceById rest d' := by
        show (if (x.id == d'.id) = true then d' else x) :: replaceById rest d' =
          x :: replaceById rest d'
        rw [if_neg (ne_true_of_eq_false hrepl)]
      rw [hstep, List.find?_cons, hx]
      exact ih hf

/-- C9: when the creator revokes the only remaining share entry of a
document — held by the grantee — the revoke succeeds, the stored row's
derived isShared flag becomes false, the former grantee's effective
permission drops to none, and any subsequent mutate attempt by the
former grantee is answered Forbidden. -/
theorem revoke_last_share_removes_access (s : ServerState)
    (id creator grantee : Nat) (d : Diagram) (sh0 : DiagramShare)
    (hfind : findByPk s id = some d) (hcreator : d.userId = creator)
    (hgr : grantee ≠ d.userId)
    (honly : s.shares.filter (fun sh => sh.diagramId == id) = [sh0])
    (hsh0 : sh0.sharedWithUserId = grantee) :
    (DiagramController.revokeShare s id creator grantee).1 = .revoked ∧
    (∃ d', findByPk (DiagramController.revokeShare s id creator grantee).2 id =
        some d' ∧
      d'.isShared = false ∧ d'.userId = d.userId ∧
      effectivePermission
        (DiagramController.revokeShare s id creator grantee).2 grantee d' =
        .none ∧
      (∀ body now,
        (DiagramController.update
          (DiagramController.revokeShare s id creator grantee).2
          id grantee body now).1 = .forbidden)) := by
  have hown : findOwned s id creator = some d :=
    findOwned_of_findByPk s id creator d hfind hcreator
  have hdid : d.id = id := by simpa using List.find?_some hfind
  have hmemf : sh0 ∈ s.shares.filter (fun sh => sh.diagramId == id) := by
    rw [honly]; exact List.mem_singleton.mpr rfl
  have hmem0 := (List.mem_filter.mp hmemf).1
  have hpred0 := (List.mem_filter.mp hmemf).2
  have hT0 : (sh0.diagramId == id && sh0.sharedWithUserId == grantee) = true := by
    simp only [Bool.and_eq_true]
    exact ⟨hpred0, by simp [hsh0]⟩
  have h1 : ¬((s.shares.filter (fun sh =>
      sh.diagramId == id && sh.sharedWithUserId == grantee)).length = 0) := by
    intro h0
    rw [List.length_eq_zero] at h0
    have : sh0 ∈ s.shares.filter (fun sh =>
        sh.diagramId == id && sh.sharedWithUserId == grantee) :=
      List.mem_filter.mpr ⟨hmem0, hT0⟩
    rw [h0] at this
    simp at this
  have h2 : ((s.shares.filter (fun sh =>
        !(sh.diagramId == id && sh.sharedWithUserId == grantee))).filter
      (fun sh => sh.diagramId == id)) = [] := by
    rw [List.filter_eq_nil_iff]
    intro sh hsh hcontra
    have hm := (List.mem_filter.mp hsh).1
    have hnT := (List.mem_filter.mp hsh).2
    have hshmem : sh ∈ s.shares.filter (fun sh => sh.diagramId == id) :=
      List.mem_filter.mpr ⟨hm, hcontra⟩
    rw [honly] at hshmem
    obtain rfl : sh = sh0 := List.mem_singleton.mp hshmem
    rw [hT0] at hnT
    simp at hnT
  have hres : DiagramController.revokeShare s id creator grantee =
      (.revoked,
        { s with
            shares := s.shares.filter (fun sh =>
              !(sh.diagramId == id && sh.sharedWithUserId == grantee))
            diagrams := replaceById s.diagrams { d with isShared := false } }) := by
    simp only [DiagramController.revokeShare, hown]
    rw [if_neg h1]
    have hrem : ((s.shares.filter (fun sh =>
          !(sh.diagramId == id && sh.sharedWithUserId == grantee))).filter
        (fun sh => sh.diagramId == id)).length = 0 := by
      rw [h2]; rfl
    rw [if_pos hrem]
  have hfind' : findByPk (DiagramController.revokeShare s id creator grantee).2
      id = some { d with isShared := false } := by
    rw [hres]
    exact find?_replaceById s.diagrams id d { d with isShared := false }
      hfind rfl
  have hnoshare : ∀ sh ∈ (DiagramController.revokeShare s id creator
      grantee).2.shares,
      ¬((sh.diagramId == id && sh.sharedWithUserId == grantee) = true) := by
    rw [hres]
    intro sh hsh
    have hnT := (List.mem_filter.mp hsh).2
    simp only [Bool.not_eq_true'] at hnT
    simp [hnT]
  refine ⟨by rw [hres], ⟨{ d with isShared := false }, hfind', rfl, rfl, ?_, ?_⟩⟩
  · have hne : ¬(grantee = ({ d with isShared := false } : Diagram).userId) := by
      simpa using hgr
    simp only [effectivePermission, if_neg hne]
    have hfnone : (DiagramController.revokeShare s id creator
        grantee).2.shares.find? (fun sh =>
          sh.diagramId == ({ d with isShared := false } : Diagram).id &&
            sh.sharedWithUserId == grantee) = none := by
      rw [List.find?_eq_none]
      intro sh hsh
      have := hnoshare sh hsh
      simpa [hdid] using this
    rw [hfnone]
  · intro body now2
    have hES : hasEditShare (DiagramController.revokeShare s id creator
        grantee).2 id grantee = false := by
      unfold hasEditShare
      rw [List.any_eq_false]
      intro sh hsh hcontra
      have h1c := (Bool.and_eq_true _ _).mp hcontra
      exact hnoshare sh hsh h1c.1
    have hc : grantee ≠ ({ d with isShared := false } : Diagram).userId ∧
        hasEditShare (DiagramController.revokeShare s id creator grantee).2
          id grantee = false := ⟨by simpa using hgr, hES⟩
    simp [DiagramController.update, hfind', hc]

/-- A store for the C9 witness: diagram 1 owned by 10, exactly one share
entry, held by user 20 at editor level. -/
def c9S : ServerState :=
  { users := [10, 20], diagrams := [c2D],
    shares := [{ diagramId := 1, sharedWithUserId := 20,
                 sharedByUserId := 10, permissionLevel := .editor }] }

/-- Witness for C9: creator 10 revokes the only share (held by 20). -/
theorem revoke_last_share_removes_access_witness :
    (DiagramController.revokeShare c9S 1 10 20).1 = .revoked ∧
    (∃ d', findByPk (DiagramController.revokeShare c9S 1 10 20).2 1 =
        some d' ∧
      d'.isShared = false ∧ d'.userId = c2D.userId ∧
      effectivePermission (DiagramController.revokeShare c9S 1 10 20).2 20 d' =
        .none ∧
      (∀ body now,
        (DiagramController.update (DiagramController.revokeShare c9S 1 10 20).2
          1 20 body now).1 = .forbidden)) :=
  revoke_last_share_removes_access c9S 1 10 20 c2D
    { diagramId := 1, sharedWithUserId := 20, sharedByUserId := 10,
      permissionLevel := .editor }
    (by decide) (by decide) (by decide) (by decide) (by decide)

/-! ### C10 -/

/-- C10: grant on a (document, grantee) pair that already has a share
entry answers AlreadyShared and leaves the store — share registry
included — unchanged; and grant preserves the at-most-one-entry-per-
(document, grantee) invariant of the unique composite key. -/
theorem grant_duplicate_rejected_and_unique (s : ServerState)
    (id req g : Nat) (lv : PermissionLevel) :
    (∀ d, findOwned s id req = some d → g ∈ s.users →
      (s.shares.any fun sh =>
        sh.diagramId == id && sh.sharedWithUserId == g) = true →
      DiagramController.shareDiagram s id req g lv = (.alreadyShared, s)) ∧
    (sharesUnique s.shares →
      sharesUnique (DiagramController.shareDiagram s id req g lv).2.shares) := by
  constructor
  · intro d hd hg hany
    have hcnt : s.users.contains g = true := List.elem_iff.mpr hg
    have hcont : ¬(s.users.contains g = false) := by rw [hcnt]; simp
    simp only [DiagramController.shareDiagram, hd]
    rw [if_neg hcont, if_pos hany]
  · intro hu
    cases hd : findOwned s id req with
    | none =>
      have hres0 : (DiagramController.shareDiagram s id req g lv).2.shares =
          s.shares := by
        simp only [DiagramController.shareDiagram, hd]
      rw [hres0]; exact hu
    | some d =>
      by_cases hcont : s.users.contains g = false
      · have hres0 : (DiagramController.shareDiagram s id req g lv).2.shares =
            s.shares := by
          simp only [DiagramController.shareDiagram, hd]
          rw [if_pos hcont]
        rw [hres0]; exact hu
      · by_cases hany : (s.shares.any fun sh =>
            sh.diagramId == id && sh.sharedWithUserId == g) = true
        · have hres0 : (DiagramController.shareDiagram s id req g lv).2.shares =
              s.shares := by
            simp only [DiagramController.shareDiagram, hd]
            rw [if_neg hcont, if_pos hany]
          rw [hres0]; exact hu
        · have hres : (DiagramController.shareDiagram s id req g lv).2.shares =
              s.shares ++
                [{ diagramId := id
                   sharedWithUserId := g
                   sharedByUserId := req
                   permissionLevel := lv }] := by
            simp only [DiagramController.shareDiagram, hd]
            rw [if_neg hcont, if_neg hany]
          rw [hres]
          unfold sharesUnique
          rw [List.pairwise_append]
          refine ⟨hu, by simp, ?_⟩
          intro a ha b hb
          obtain rfl : b =
              { diagramId := id
                sharedWithUserId := g
                sharedByUserId := req
                permissionLevel := lv } :=
            List.mem_singleton.mp hb
          intro hcontra
          have hak : (a.diagramId == id && a.sharedWithUserId == g) = true := by
            simp only [Bool.and_eq_true]
            exact ⟨by simp [hcontra.1], by simp [hcontra.2]⟩
          exact hany (List.any_eq_true.mpr ⟨a, ha, hak⟩)

/-- Witness for C10 at c2S, where (diagram 1, grantee 20) already has a
share entry and the creator 10 grants again. -/
theorem grant_duplicate_rejected_and_unique_witness :
    (∀ d, findOwned c2S 1 10 = some d → 20 ∈ c2S.users →
      (c2S.shares.any fun sh =>
        sh.diagramId == 1 && sh.sharedWithUserId == 20) = true →
      DiagramController.shareDiagram c2S 1 10 20 .editor =
        (.alreadyShared, c2S)) ∧
    (sharesUnique c2S.shares →
      sharesUnique (DiagramController.shareDiagram c2S 1 10 20 .editor).2.shares) :=
  grant_duplicate_rejected_and_unique c2S 1 10 20 .editor
